import Mathlib

/-!
Lab08 blog widget: `src/script.js`.

A shallow embedding of the three classes of `src/script.js` (`Blog`,
`BlogManager`, `BlogUI`) together with the parts of the browser they touch:
the clock (`Date.now()`, `new Date()`), the `localStorage` slot `"blogs"`,
`JSON.stringify` / `JSON.parse`, `Array.prototype.sort`, `String.prototype.trim`,
`String.prototype.split` and `parseInt`.

Conventions.

* The clock is a function `clock : Nat → Int`; the `n`-th reading the program
  takes is `clock n` (milliseconds since the epoch).  The number of readings
  taken so far is the field `tick` of the state.
* Numbers that occur in the program are integers (time values, ids, results of
  `parseInt`) or `NaN`; they are modelled exactly, which agrees with IEEE
  doubles below `2^53`.
* A thrown JavaScript exception is the `error` case of `Except JSError`.
-/

namespace Lab08

/-! ## Values -/

/-- The exceptions the program can raise. -/
inductive JSError where
  /-- Thrown by `JSON.parse` on a text that is not JSON. -/
  | syntaxError
  /-- Thrown when a property that is not a function is called. -/
  | typeError
deriving DecidableEq, Repr

/-- Primitive JavaScript values, the arguments a caller can pass for an id or
for a tag. -/
inductive Prim where
  | undefined
  | null
  | bool (b : Bool)
  | num (n : Int)
  | nan
  | str (s : String)
deriving DecidableEq, Repr

/-- The abstract operation `ToBoolean` on primitives: what `if (v)` and
`v || w` test. -/
def Prim.truthy : Prim → Bool
  | .undefined => false
  | .null => false
  | .bool b => b
  | .num n => n != 0
  | .nan => false
  | .str s => s != ""

/-- A date-valued field of an entry.  `new Date()` makes a `Date` object; after
`JSON.stringify` and `JSON.parse` the field holds the ISO-8601 string that
`Date.prototype.toJSON` wrote for that time value, a string and no longer a
`Date`. -/
inductive DateVal where
  /-- A `Date` object with the given time value. -/
  | obj (t : Int)
  /-- The string `new Date(t).toISOString()`. -/
  | iso (t : Int)
deriving DecidableEq, Repr

/-- The abstract operation `ToNumber` as the subtraction in the comparator of
`sortBlogs` applies it: a `Date` gives its time value, an ISO-8601 string is no
numeric literal and gives `NaN` (`none`). -/
def DateVal.toNumber : DateVal → Option Int
  | .obj t => some t
  | .iso _ => none

/-! ## class Blog -/

/-- An element of `BlogManager.blogs`.  `instanceOfBlog` records whether the
object was made by `new Blog(...)` (its prototype is `Blog.prototype`, so it has
the methods `update` and `getFormattedDate`) or is a plain object that
`JSON.parse` made. -/
structure Blog where
  instanceOfBlog : Bool
  id : Int
  title : String
  content : String
  tags : List String
  createdDate : DateVal
  updatedDate : DateVal
deriving DecidableEq, Repr

/-- The expression `tags || []`: an absent (`undefined`, `null`) tags argument
is `none`; an array is truthy, also when empty. -/
def tagsOrEmpty (tags : Option (List String)) : List String :=
  match tags with
  | some ts => ts
  | none => []

/-- The constructor `new Blog(id, title, content, tags)`, lines 3-10; `tCreated` and
`tUpdated` are the two clock readings of `new Date()`. -/
def Blog.new (id : Int) (title content : String) (tags : Option (List String))
    (tCreated tUpdated : Int) : Blog :=
  { instanceOfBlog := true
    id := id
    title := title
    content := content
    tags := tagsOrEmpty tags
    createdDate := .obj tCreated
    updatedDate := .obj tUpdated }

/-- The method `Blog.update(title, content, tags)`, lines 11-16; `tNow` is the clock
reading of `new Date()`. -/
def Blog.update (b : Blog) (title content : String) (tags : Option (List String))
    (tNow : Int) : Blog :=
  { b with
    title := title
    content := content
    tags := tagsOrEmpty tags
    updatedDate := .obj tNow }

/-! ## localStorage and JSON -/

/-- The JSON object `JSON.stringify` writes for one entry: the own properties
`id`, `title`, `content`, `tags`, `createdDate`, `updatedDate`, the two dates as
the ISO-8601 strings of the given time values.  The prototype of the object is
not part of the text. -/
structure Record where
  id : Int
  title : String
  content : String
  tags : List String
  createdDate : Int
  updatedDate : Int
deriving DecidableEq, Repr

/-- A text held under the key `"blogs"`, represented by what `JSON.parse` makes
of it. -/
inductive StoredText where
  /-- The JSON text of an array of entry records. -/
  | entries (rs : List Record)
  /-- The JSON text `null`. -/
  | nullLiteral
  /-- A text that is not JSON. -/
  | malformed
deriving DecidableEq, Repr

/-- The time value a date field is serialized with: `Date.prototype.toJSON` gives
the ISO string of a `Date`, and a string is written as it is. -/
def DateVal.time : DateVal → Int
  | .obj t => t
  | .iso t => t

/-- The record `JSON.stringify` writes for an entry. -/
def Blog.toRecord (b : Blog) : Record :=
  { id := b.id
    title := b.title
    content := b.content
    tags := b.tags
    createdDate := b.createdDate.time
    updatedDate := b.updatedDate.time }

/-- The object `JSON.parse` makes of a record: a plain object, its dates
strings. -/
def Record.toObject (r : Record) : Blog :=
  { instanceOfBlog := false
    id := r.id
    title := r.title
    content := r.content
    tags := r.tags
    createdDate := .iso r.createdDate
    updatedDate := .iso r.updatedDate }

/-- The text `JSON.stringify(blogs)`. -/
def stringify (blogs : List Blog) : StoredText :=
  .entries (blogs.map Blog.toRecord)

/-! ## class BlogManager -/

/-- The state the methods of `BlogManager` work on: the two fields of the
object, the `localStorage` slot `"blogs"` (`none` when the key is absent), and
the number of clock readings taken so far. -/
structure BlogManager where
  blogs : List Blog
  filteredBlogs : List Blog
  storage : Option StoredText
  tick : Nat
deriving DecidableEq, Repr

/-- The expression `JSON.parse(localStorage.getItem("blogs")) || []` of the
constructor, line 32.  For an absent key `getItem` gives `null`, which
`JSON.parse` reads as the text `null`. -/
def loadBlogs (storage : Option StoredText) : Except JSError (List Blog) :=
  match storage with
  | none => .ok []
  | some .nullLiteral => .ok []
  | some (.entries rs) => .ok (rs.map Record.toObject)
  | some .malformed => .error .syntaxError

/-- The constructor `new BlogManager()`, lines 30-34, run with the given storage
slot and clock position. -/
def BlogManager.new (storage : Option StoredText) (tick : Nat) :
    Except JSError BlogManager :=
  match loadBlogs storage with
  | .ok blogs => .ok { blogs := blogs, filteredBlogs := blogs, storage := storage, tick := tick }
  | .error e => .error e

/-- The comparison `blog.id === id` with `blog.id` a number. -/
def idMatches (id : Prim) (b : Blog) : Bool :=
  match id with
  | .num n => b.id == n
  | _ => false

/-- The method `getBlog(id)`, lines 61-63; `none` is `undefined`. -/
def BlogManager.getBlog (m : BlogManager) (id : Prim) : Option Blog :=
  m.blogs.find? (idMatches id)

/-- The method `saveBlogs()`, lines 80-82. -/
def BlogManager.saveBlogs (m : BlogManager) : BlogManager :=
  { m with storage := some (stringify m.blogs) }

/-- The comparator of `sortBlogs`, `(a, b) => b.updatedDate - a.updatedDate`;
`none` is `NaN`. -/
def compareFn (a b : Blog) : Option Int :=
  match b.updatedDate.toNumber, a.updatedDate.toNumber with
  | some y, some x => some (y - x)
  | _, _ => none

/-- Whether `Array.prototype.sort` leaves `a` in front of `b`: the comparator
is not positive, a `NaN` counting as `+0`. -/
def keepsOrder (a b : Blog) : Prop :=
  match compareFn a b with
  | some v => v ≤ 0
  | none => True

instance keepsOrderDecidable : DecidableRel keepsOrder := fun a b => by
  unfold keepsOrder
  cases compareFn a b <;> infer_instance

/-- The call `blogs.sort(compareFn)`: a stable sort, taken as insertion sort.
(For a comparator that is not consistent, as with `Date` and string dates mixed,
the standard leaves the order to the engine.) -/
def arraySort (blogs : List Blog) : List Blog :=
  blogs.insertionSort keepsOrder

/-- The method `sortBlogs()`, lines 65-68. -/
def BlogManager.sortBlogs (m : BlogManager) : BlogManager :=
  let sorted := arraySort m.blogs
  { m with blogs := sorted, filteredBlogs := sorted }

/-- The method `addBlog(title, content, tags)`, lines 36-43: three clock readings
(`Date.now()` and the two `new Date()` of the constructor), push, reset of the
filter, sort, save.  Gives the new state and the new entry. -/
def BlogManager.addBlog (clock : Nat → Int) (m : BlogManager) (title content : String)
    (tags : Option (List String)) : BlogManager × Blog :=
  let blog := Blog.new (clock m.tick) title content tags (clock (m.tick + 1)) (clock (m.tick + 2))
  let pushed := m.blogs ++ [blog]
  let m1 : BlogManager := { m with blogs := pushed, filteredBlogs := pushed, tick := m.tick + 3 }
  (m1.sortBlogs.saveBlogs, blog)

/-- In-place change of the first element that satisfies `p`: the object `find`
returned is changed where it stands in the array. -/
def updateFirst (p : Blog → Bool) (f : Blog → Blog) : List Blog → List Blog
  | [] => []
  | b :: bs => if p b then f b :: bs else b :: updateFirst p f bs

/-- The method `updateBlog(id, title, content, tags)`, lines 45-53.  Gives the new
state and the value returned (`none` is `undefined`).  Calling `blog.update` on
an object that is no instance of `Blog` throws a `TypeError`.  (`sortBlogs`
assigns `filteredBlogs` anew, so the state of the old view after the in-place
change is never seen.) -/
def BlogManager.updateBlog (clock : Nat → Int) (m : BlogManager) (id : Prim)
    (title content : String) (tags : Option (List String)) :
    Except JSError (BlogManager × Option Blog) :=
  match m.getBlog id with
  | none => .ok (m, none)
  | some blog =>
    if blog.instanceOfBlog then
      let change := fun b : Blog => b.update title content tags (clock m.tick)
      let m1 : BlogManager :=
        { m with
          blogs := updateFirst (idMatches id) change m.blogs
          tick := m.tick + 1 }
      .ok (m1.sortBlogs.saveBlogs, some (change blog))
    else
      .error .typeError

/-- The method `deleteBlog(id)`, lines 55-59. -/
def BlogManager.deleteBlog (m : BlogManager) (id : Prim) : BlogManager :=
  let kept := m.blogs.filter (fun b => !idMatches id b)
  BlogManager.saveBlogs { m with blogs := kept, filteredBlogs := kept }

/-- The call `blog.tags.includes(tag)`: `SameValueZero` of a string element with
the argument. -/
def tagsInclude (tag : Prim) (b : Blog) : Bool :=
  match tag with
  | .str t => b.tags.contains t
  | _ => false

/-- The method `filterBlogsByTag(tag)`, lines 70-78. -/
def BlogManager.filterBlogsByTag (m : BlogManager) (tag : Prim) : BlogManager :=
  if tag.truthy then
    { m with filteredBlogs := m.blogs.filter (tagsInclude tag) }
  else
    { m with filteredBlogs := m.blogs }

/-! ## Strings -/

/-- The code points `String.prototype.trim` and `parseInt` strip: the
ECMAScript `WhiteSpace` and `LineTerminator` characters. -/
def isWhiteSpace (c : Char) : Bool :=
  let n := c.toNat
  n == 0x9 || n == 0xA || n == 0xB || n == 0xC || n == 0xD || n == 0x20 || n == 0xA0 ||
    n == 0x1680 || (0x2000 ≤ n && n ≤ 0x200A) || n == 0x2028 || n == 0x2029 ||
    n == 0x202F || n == 0x205F || n == 0x3000 || n == 0xFEFF

/-- Strip white space at the front of a character sequence. -/
def trimStart (cs : List Char) : List Char :=
  cs.dropWhile isWhiteSpace

/-- Strip white space at the end of a character sequence. -/
def trimEnd (cs : List Char) : List Char :=
  (cs.reverse.dropWhile isWhiteSpace).reverse

/-- The method `String.prototype.trim`. -/
def jsTrim (s : String) : String :=
  ⟨trimEnd (trimStart s.data)⟩

/-- Split a character sequence at each `','`: the first piece and the pieces
after it. -/
def splitComma : List Char → List Char × List (List Char)
  | [] => ([], [])
  | c :: cs =>
    if c = ',' then ([], (splitComma cs).1 :: (splitComma cs).2)
    else (c :: (splitComma cs).1, (splitComma cs).2)

/-- The call `s.split(",")`. -/
def jsSplitComma (s : String) : List String :=
  ((splitComma s.data).1 :: (splitComma s.data).2).map String.mk

/-- The value of a character as a digit in the given radix, if it is one. -/
def digitValue (radix : Nat) (c : Char) : Option Nat :=
  let n := c.toNat
  let v :=
    if 48 ≤ n && n ≤ 57 then n - 48
    else if 97 ≤ n && n ≤ 122 then n - 87
    else if 65 ≤ n && n ≤ 90 then n - 55
    else radix
  if v < radix then some v else none

/-- The digits at the front of a character sequence, most significant first. -/
def leadingDigits (radix : Nat) : List Char → List Nat
  | [] => []
  | c :: cs =>
    match digitValue radix c with
    | some v => v :: leadingDigits radix cs
    | none => []

/-- The number a digit sequence denotes. -/
def digitsValue (radix : Nat) (ds : List Nat) : Nat :=
  ds.foldl (fun acc d => acc * radix + d) 0

/-- The function `parseInt(s)` with no radix argument: leading white space, an
optional sign, an optional `0x` prefix, then the longest run of digits; `NaN`
when there is no digit. -/
def parseInt (s : String) : Prim :=
  let cs := trimStart s.data
  let negative := cs.head? == some '-'
  let cs := if cs.head? == some '-' || cs.head? == some '+' then cs.tail else cs
  let hex := cs.take 2 == ['0', 'x'] || cs.take 2 == ['0', 'X']
  let radix := if hex then 16 else 10
  let cs := if hex then cs.drop 2 else cs
  let ds := leadingDigits radix cs
  if ds.isEmpty then .nan
  else if negative then .num (-(digitsValue radix ds : Int))
  else .num (digitsValue radix ds)

/-! ## class BlogUI -/

/-- What the page around the script fixes: the values `form.reset()` puts back
into the three visible fields, and the text `toLocaleString("th-TH", ...)` gives
for a date field. -/
structure Page where
  defaultTitle : String
  defaultContent : String
  defaultTags : String
  formatDate : DateVal → String

/-- The state of the user interface: the store, the `value` of the four form
fields, the text of the form heading, whether the cancel button carries the
class `hidden`, and the `innerHTML` of the list. -/
structure BlogUI where
  blogManager : BlogManager
  titleInput : String
  contentInput : String
  tagsInput : String
  editIdInput : String
  formTitle : String
  cancelHidden : Bool
  blogList : String
deriving DecidableEq, Repr

/-- The string one element of `filteredBlogs` is mapped to in `render`,
lines 177-196: the empty string for an object that is no instance of `Blog`. -/
def renderItem (page : Page) (blog : Blog) : String :=
  if blog.instanceOfBlog then
    "\n              <div class=\"blog-post\">\n                <h2 class=\"blog-title\">"
      ++ blog.title
      ++ "</h2>\n                <div class=\"blog-date\">อัพเดทเมื่อ: "
      ++ page.formatDate blog.updatedDate
      ++ "</div>\n                <div class=\"blog-content\">"
      ++ blog.content.replace "\n" "<br>"
      ++ "</div>\n                <div class=\"blog-tags\">\n                  <strong>Tags:</strong> "
      ++ String.intercalate ", " blog.tags
      ++ "\n                </div>\n                <div class=\"blog-actions\">\n                  <button class=\"btn-edit\" onclick=\"blogUI.editBlog("
      ++ toString blog.id
      ++ ")\">แก้ไข</button>\n                  <button class=\"btn-delete\" onclick=\"blogUI.deleteBlog("
      ++ toString blog.id
      ++ ")\">ลบ</button>\n                </div>\n              </div>\n            "
  else
    ""

/-- The method `render()`, lines 173-199. -/
def BlogUI.render (page : Page) (ui : BlogUI) : BlogUI :=
  { ui with blogList := String.join (ui.blogManager.filteredBlogs.map (renderItem page)) }

/-- The method `resetForm()`, lines 166-171. -/
def BlogUI.resetForm (page : Page) (ui : BlogUI) : BlogUI :=
  { ui with
    titleInput := page.defaultTitle
    contentInput := page.defaultContent
    tagsInput := page.defaultTags
    editIdInput := ""
    formTitle := "เขียนบล็อกให้"
    cancelHidden := true }

/-- The tags `handleSubmit` passes on, lines 129-132: trim, split at commas, trim
each piece. -/
def parseTags (text : String) : List String :=
  (jsSplitComma (jsTrim text)).map jsTrim

/-- The method `handleSubmit()`, lines 126-144. -/
def BlogUI.handleSubmit (clock : Nat → Int) (page : Page) (ui : BlogUI) :
    Except JSError BlogUI :=
  let title := jsTrim ui.titleInput
  let content := jsTrim ui.contentInput
  let tags := parseTags ui.tagsInput
  let editId := parseInt ui.editIdInput
  if title != "" && content != "" then
    if editId.truthy then
      match ui.blogManager.updateBlog clock editId title content (some tags) with
      | .ok (m, _) => .ok (BlogUI.render page (BlogUI.resetForm page { ui with blogManager := m }))
      | .error e => .error e
    else
      let m := (ui.blogManager.addBlog clock title content (some tags)).1
      .ok (BlogUI.render page (BlogUI.resetForm page { ui with blogManager := m }))
  else
    .ok ui

/-- The method `editBlog(id)`, lines 146-157. -/
def BlogUI.editBlog (ui : BlogUI) (id : Prim) : BlogUI :=
  match ui.blogManager.getBlog id with
  | some blog =>
    { ui with
      titleInput := blog.title
      contentInput := blog.content
      tagsInput := String.intercalate ", " blog.tags
      editIdInput := toString blog.id
      formTitle := "แก้ไขบล็อก"
      cancelHidden := false }
  | none => ui

/-- The method `BlogUI.deleteBlog(id)`, lines 159-164; `confirmed` is the answer to
the `confirm` dialog. -/
def BlogUI.deleteBlog (page : Page) (ui : BlogUI) (id : Prim) (confirmed : Bool) : BlogUI :=
  if confirmed then
    BlogUI.render page { ui with blogManager := ui.blogManager.deleteBlog id }
  else
    ui

/-! ## Runs of store operations -/

/-- The three operations that change the collection, with their arguments. -/
inductive Op where
  | add (title content : String) (tags : Option (List String))
  | update (id : Prim) (title content : String) (tags : Option (List String))
  | delete (id : Prim)
deriving DecidableEq, Repr

/-- One operation on the store. -/
def step (clock : Nat → Int) (m : BlogManager) : Op → Except JSError BlogManager
  | .add title content tags => .ok (m.addBlog clock title content tags).1
  | .update id title content tags =>
    match m.updateBlog clock id title content tags with
    | .ok (m1, _) => .ok m1
    | .error e => .error e
  | .delete id => .ok (m.deleteBlog id)

/-- A sequence of operations, stopped by the first exception. -/
def run (clock : Nat → Int) (m : BlogManager) : List Op → Except JSError BlogManager
  | [] => .ok m
  | op :: ops =>
    match step clock m op with
    | .ok m1 => run clock m1 ops
    | .error e => .error e

/-- The store `new BlogManager()` makes when nothing is persisted. -/
def emptyStore : BlogManager :=
  { blogs := [], filteredBlogs := [], storage := none, tick := 0 }

/-! ## Predicates of the specification -/

/-- Entry `a` is not older than entry `b`: both `updatedDate` are `Date` objects
and the time value of `a` is greater than or equal to that of `b`. -/
def notOlder (a b : Blog) : Prop :=
  ∃ x y, a.updatedDate = .obj x ∧ b.updatedDate = .obj y ∧ y ≤ x

/-- Every entry was made by `new Blog` and carries a `Date` in `updatedDate`. -/
def AllFresh (blogs : List Blog) : Prop :=
  ∀ b ∈ blogs, b.instanceOfBlog = true ∧ ∃ t, b.updatedDate = .obj t

/-- A clock of the calendar time of one millisecond: every reading is the same. -/
def stalledClock : Nat → Int :=
  fun _ => 1700000000000

/-- A clock that advances by one millisecond at each reading. -/
def tickingClock : Nat → Int :=
  fun n => 1700000000000 + n

/-- The store after one `addBlog` on the empty store under the stalled clock. -/
def tripStore0 : BlogManager :=
  (emptyStore.addBlog stalledClock "First" "One entry" none).1

/-- The store after one `addBlog("Trip", "Went to the beach", ["travel", "summer"])`
on the empty store, under the ticking clock. -/
def tripStore : BlogManager :=
  (emptyStore.addBlog tickingClock "Trip" "Went to the beach" (some ["travel", "summer"])).1

/-- Every entry was made by `new Blog`, and its `updatedDate` is a `Date` of a
reading the clock gave before the present position. -/
def Stamped (clock : Nat → Int) (m : BlogManager) : Prop :=
  ∀ b ∈ m.blogs, b.instanceOfBlog = true ∧ ∃ i, i < m.tick ∧ b.updatedDate = .obj (clock i)

/-- The store after two `addBlog` calls within one millisecond. -/
def twinStore : BlogManager :=
  (tripStore0.addBlog stalledClock "Second" "Same millisecond" none).1

/-- The tag argument of `filterBlogsByTag`: a text, or absent (`undefined`). -/
def tagArgument : Option String → Prim
  | none => .undefined
  | some t => .str t

/-- The filtered view as the specification defines it: the full collection when
the tag is empty or absent, otherwise the entries, in the collection's order,
whose tags sequence has an element equal to the tag. -/
def filterByTagSpec (blogs : List Blog) (tag : Option String) : List Blog :=
  match tag with
  | none => blogs
  | some t => if t = "" then blogs else blogs.filter (fun b => decide (∃ e ∈ b.tags, e = t))

/-- A page whose form fields are empty by default and that shows a date as its
time value. -/
def plainPage : Page :=
  { defaultTitle := ""
    defaultContent := ""
    defaultTags := ""
    formatDate := fun d => toString d.time }

/-- The form over the one-entry store, in edit mode for that entry, with a title
of blanks only. -/
def blankTitleForm : BlogUI :=
  { blogManager := tripStore
    titleInput := "   "
    contentInput := "Went to the beach"
    tagsInput := "travel, summer"
    editIdInput := "1700000000000"
    formTitle := "แก้ไขบล็อก"
    cancelHidden := false
    blogList := "" }

/-- Every entry was made by `new Blog`, its `createdDate` and `updatedDate` are
`Date` objects of two readings the clock gave before the present position, the
reading of `createdDate` not after that of `updatedDate`. -/
def Dated (clock : Nat → Int) (m : BlogManager) : Prop :=
  ∀ b ∈ m.blogs, b.instanceOfBlog = true ∧
    ∃ i j, i ≤ j ∧ j < m.tick ∧ b.createdDate = .obj (clock i) ∧ b.updatedDate = .obj (clock j)

/-- The form over the empty store, in create mode, filled in for a new entry,
its tags field left empty. -/
def newEntryForm : BlogUI :=
  { blogManager := emptyStore
    titleInput := " Trip "
    contentInput := "Went to the beach"
    tagsInput := ""
    editIdInput := ""
    formTitle := "เขียนบล็อกให้"
    cancelHidden := true
    blogList := "" }

/-- The store `new BlogManager()` makes from what the one-entry store has
persisted: the page is loaded again. -/
def reloadedStore : BlogManager :=
  { blogs := (tripStore.blogs.map Blog.toRecord).map Record.toObject
    filteredBlogs := (tripStore.blogs.map Blog.toRecord).map Record.toObject
    storage := tripStore.storage
    tick := tripStore.tick }

/-- The reloaded store after one more `addBlog`. -/
def reloadedThenAdded : BlogManager :=
  (reloadedStore.addBlog tickingClock "Second" "After the reload" none).1

/-- Create mode of the form: the edit id is empty and the cancel button is
hidden. -/
def BlogUI.createMode (ui : BlogUI) : Prop :=
  ui.editIdInput = "" ∧ ui.cancelHidden = true

/-- Editing mode of the form: the edit id is set and the cancel button is
visible. -/
def BlogUI.editingMode (ui : BlogUI) : Prop :=
  ui.editIdInput ≠ "" ∧ ui.cancelHidden = false

/-- The form over the one-entry store as `editBlog` leaves it for that entry,
then its title changed by the user. -/
def editingForm : BlogUI :=
  { blogManager := tripStore
    titleInput := "Trip v2"
    contentInput := "Went to the beach"
    tagsInput := "travel, summer"
    editIdInput := "1700000000000"
    formTitle := "แก้ไขบล็อก"
    cancelHidden := false
    blogList := "" }

/-- The characters `join(", ")` puts after the first element: each further
element behind a comma and a blank. -/
def joinRest : List (List Char) → List Char
  | [] => []
  | a :: as => ',' :: ' ' :: (a ++ joinRest as)

/-- A tag as the parsing of `handleSubmit` leaves it: no comma, no white space
at the front or at the end. -/
def Trimmed (d : List Char) : Prop :=
  ',' ∉ d ∧ trimStart d = d ∧ trimEnd d = d

/-- The characters `join(",")` puts after the first element: each further
element behind a comma. -/
def joinComma : List (List Char) → List Char
  | [] => []
  | a :: as => ',' :: (a ++ joinComma as)

/-- The form over the empty store, in create mode, with blanks around the tags
and an empty tag between two commas. -/
def taggedForm : BlogUI :=
  { blogManager := emptyStore
    titleInput := "Trip"
    contentInput := "Went to the beach"
    tagsInput := " travel , summer,,hot sun "
    editIdInput := ""
    formTitle := "เขียนบล็อกให้"
    cancelHidden := true
    blogList := "" }

/-! ## Sorting -/

theorem keepsOrder_obj {a b : Blog} {x y : Int} (ha : a.updatedDate = .obj x)
    (hb : b.updatedDate = .obj y) : keepsOrder a b ↔ y ≤ x := by
  simp [keepsOrder, compareFn, ha, hb, DateVal.toNumber]

theorem notOlder_trans {a b c : Blog} (hab : notOlder a b) (hbc : notOlder b c) :
    notOlder a c := by
  obtain ⟨x, y, hx, hy, hxy⟩ := hab
  obtain ⟨y', z, hy', hz, hyz⟩ := hbc
  have : y = y' := by rw [hy] at hy'; exact DateVal.obj.inj hy'
  subst this
  exact ⟨x, z, hx, hz, le_trans hyz hxy⟩

theorem pairwise_orderedInsert (a : Blog) (x : Int) (ha : a.updatedDate = .obj x) :
    ∀ l : List Blog, AllFresh l → l.Pairwise notOlder →
      (l.orderedInsert keepsOrder a).Pairwise notOlder
  | [], _, _ => by simp
  | b :: l, hf, hp => by
    obtain ⟨y, hb⟩ := (hf b (List.mem_cons_self b l)).2
    have hfl : AllFresh l := fun c hc => hf c (List.mem_cons_of_mem b hc)
    rw [List.pairwise_cons] at hp
    by_cases h : keepsOrder a b
    · rw [List.orderedInsert, if_pos h]
      have hab : notOlder a b := ⟨x, y, ha, hb, (keepsOrder_obj ha hb).1 h⟩
      refine List.Pairwise.cons ?_ (List.Pairwise.cons hp.1 hp.2)
      intro c hc
      rcases List.mem_cons.1 hc with rfl | hc
      · exact hab
      · exact notOlder_trans hab (hp.1 c hc)
    · rw [List.orderedInsert, if_neg h]
      have hba : notOlder b a := by
        refine ⟨y, x, hb, ha, ?_⟩
        have := mt (keepsOrder_obj ha hb).2 h
        omega
      refine List.Pairwise.cons ?_ (pairwise_orderedInsert a x ha l hfl hp.2)
      intro c hc
      rcases (List.mem_orderedInsert keepsOrder).1 hc with rfl | hc
      · exact hba
      · exact hp.1 c hc

theorem allFresh_arraySort {l : List Blog} (hf : AllFresh l) : AllFresh (arraySort l) :=
  fun b hb => hf b ((List.mem_insertionSort keepsOrder).1 hb)

theorem pairwise_arraySort : ∀ l : List Blog, AllFresh l → (arraySort l).Pairwise notOlder
  | [], _ => by simp [arraySort]
  | a :: l, hf => by
    obtain ⟨x, ha⟩ := (hf a (List.mem_cons_self a l)).2
    have hfl : AllFresh l := fun c hc => hf c (List.mem_cons_of_mem a hc)
    exact pairwise_orderedInsert a x ha _ (allFresh_arraySort hfl) (pairwise_arraySort l hfl)

/-! ## The store started empty -/

theorem mem_updateFirst {p : Blog → Bool} {f : Blog → Blog} {c : Blog} :
    ∀ {l : List Blog}, c ∈ updateFirst p f l → c ∈ l ∨ ∃ b ∈ l, p b = true ∧ c = f b
  | [], h => by simp [updateFirst] at h
  | b :: l, h => by
    unfold updateFirst at h
    by_cases hp : p b = true
    · rw [if_pos hp] at h
      rcases List.mem_cons.1 h with rfl | h
      · exact Or.inr ⟨b, List.mem_cons_self b l, hp, rfl⟩
      · exact Or.inl (List.mem_cons_of_mem b h)
    · rw [if_neg hp] at h
      rcases List.mem_cons.1 h with rfl | h
      · exact Or.inl (List.mem_cons_self c l)
      · rcases mem_updateFirst h with h | ⟨d, hd, hpd, rfl⟩
        · exact Or.inl (List.mem_cons_of_mem b h)
        · exact Or.inr ⟨d, List.mem_cons_of_mem b hd, hpd, rfl⟩

theorem allFresh_updateFirst {p : Blog → Bool} {l : List Blog} (hf : AllFresh l)
    (title content : String) (tags : Option (List String)) (t : Int) :
    AllFresh (updateFirst p (fun b => b.update title content tags t) l) := by
  intro c hc
  rcases mem_updateFirst hc with h | ⟨b, hb, _, rfl⟩
  · exact hf c h
  · exact ⟨(hf b hb).1, t, rfl⟩

theorem getBlog_mem {m : BlogManager} {id : Prim} {b : Blog} (h : m.getBlog id = some b) :
    b ∈ m.blogs ∧ idMatches id b = true := by
  unfold BlogManager.getBlog at h
  exact ⟨List.mem_of_find?_eq_some h, List.find?_some h⟩

/-- On a store whose entries were all made by `new Blog`, every operation
completes, and leaves such a store, sorted. -/
theorem step_fresh (clock : Nat → Int) (m : BlogManager) (hf : AllFresh m.blogs)
    (hs : m.blogs.Pairwise notOlder) (op : Op) :
    ∃ m1, step clock m op = .ok m1 ∧ AllFresh m1.blogs ∧ m1.blogs.Pairwise notOlder := by
  cases op with
  | add title content tags =>
    refine ⟨_, rfl, ?_⟩
    have hf1 : AllFresh (m.blogs ++
        [Blog.new (clock m.tick) title content tags (clock (m.tick + 1)) (clock (m.tick + 2))]) := by
      intro b hb
      rcases List.mem_append.1 hb with hb | hb
      · exact hf b hb
      · rw [List.mem_singleton] at hb
        subst hb
        exact ⟨rfl, _, rfl⟩
    exact ⟨allFresh_arraySort hf1, pairwise_arraySort _ hf1⟩
  | update id title content tags =>
    cases hg : m.getBlog id with
    | none => exact ⟨m, by simp [step, BlogManager.updateBlog, hg], hf, hs⟩
    | some blog =>
      have hi : blog.instanceOfBlog = true := (hf blog (getBlog_mem hg).1).1
      have hf1 := allFresh_updateFirst (p := idMatches id) hf title content tags (clock m.tick)
      refine ⟨BlogManager.saveBlogs (BlogManager.sortBlogs
        { m with
          blogs := updateFirst (idMatches id)
            (fun b => b.update title content tags (clock m.tick)) m.blogs
          tick := m.tick + 1 }), ?_, allFresh_arraySort hf1, pairwise_arraySort _ hf1⟩
      simp only [step, BlogManager.updateBlog, hg, hi, if_true]
  | delete id =>
    refine ⟨_, rfl, ?_, ?_⟩
    · intro b hb
      exact hf b (List.mem_filter.1 hb).1
    · exact List.Pairwise.filter _ hs

theorem run_fresh (clock : Nat → Int) : ∀ (ops : List Op) (m : BlogManager),
    AllFresh m.blogs → m.blogs.Pairwise notOlder →
    ∃ m1, run clock m ops = .ok m1 ∧ AllFresh m1.blogs ∧ m1.blogs.Pairwise notOlder
  | [], m, hf, hs => ⟨m, rfl, hf, hs⟩
  | op :: ops, m, hf, hs => by
    obtain ⟨m1, h1, hf1, hs1⟩ := step_fresh clock m hf hs op
    obtain ⟨m2, h2, hf2, hs2⟩ := run_fresh clock ops m1 hf1 hs1
    exact ⟨m2, by simp [run, h1, h2], hf2, hs2⟩

/-- C1. Started on the empty store, every finite sequence of `addBlog`,
`updateBlog` and `deleteBlog` calls, whatever their arguments and whatever the
clock reads, runs to its end, and in the collection it leaves each entry's
`updatedDate` is greater than or equal to that of the entry after it. -/
theorem C1_sorted_after_every_run (clock : Nat → Int) (ops : List Op) :
    ∃ m, run clock emptyStore ops = .ok m ∧ List.Chain' notOlder m.blogs := by
  obtain ⟨m, h, _, hs⟩ := run_fresh clock ops emptyStore
    (by intro b hb; simp [emptyStore] at hb) (by simp [emptyStore])
  exact ⟨m, h, List.Pairwise.chain' hs⟩

/-! ## Storage -/

/-- C2. After `addBlog("Trip", "Went to the beach", ["travel", "summer"])` on the
empty store the storage slot holds the serialization of the one-entry collection;
a store constructed from that slot holds one entry with the same `id`, `title`,
`content` and `tags`, but it is a plain object, no instance of `Blog`, and its
`createdDate` and `updatedDate` are ISO strings, no `Date` objects: the reloaded
collection is not equal to the original. -/
theorem C2_reload_loses_dates_and_class :
    tripStore.blogs =
        [{ instanceOfBlog := true, id := 1700000000000, title := "Trip",
           content := "Went to the beach", tags := ["travel", "summer"],
           createdDate := .obj 1700000000001, updatedDate := .obj 1700000000002 }] ∧
      tripStore.storage = some (stringify tripStore.blogs) ∧
      (∃ m, BlogManager.new tripStore.storage tripStore.tick = .ok m ∧
        m.blogs =
          [{ instanceOfBlog := false, id := 1700000000000, title := "Trip",
             content := "Went to the beach", tags := ["travel", "summer"],
             createdDate := .iso 1700000000001, updatedDate := .iso 1700000000002 }] ∧
        m.blogs ≠ tripStore.blogs) := by
  refine ⟨by decide, by decide, _, rfl, by decide, by decide⟩

/-- C3. With a text that is not JSON under the storage key, the constructor builds
no store at all: `JSON.parse` raises a `SyntaxError`, which nothing catches, and
the collection is not set to the empty sequence. -/
theorem C3_malformed_storage_throws :
    BlogManager.new (some StoredText.malformed) 0 = .error .syntaxError ∧
      ¬ ∃ m, BlogManager.new (some StoredText.malformed) 0 = .ok m ∧ m.blogs = [] := by
  refine ⟨rfl, ?_⟩
  rintro ⟨m, h, _⟩
  simp [BlogManager.new, loadBlogs] at h

/-- The constructor on the three kinds of storage content: an absent key and the
text `null` give the empty collection and the empty view, a text that is not
JSON gives the `SyntaxError` of `JSON.parse`. -/
theorem constructor_by_storage (tick : Nat) :
    BlogManager.new none tick
        = .ok { blogs := [], filteredBlogs := [], storage := none, tick := tick } ∧
      BlogManager.new (some .nullLiteral) tick
        = .ok { blogs := [], filteredBlogs := [], storage := some .nullLiteral, tick := tick } ∧
      BlogManager.new (some .malformed) tick = .error .syntaxError :=
  ⟨rfl, rfl, rfl⟩

/-! ## `updateBlog` -/

theorem idMatches_eq_true {id : Prim} {b : Blog} : idMatches id b = true ↔ id = .num b.id := by
  cases id with
  | num n =>
    simp only [idMatches, beq_iff_eq, Prim.num.injEq]
    exact eq_comm
  | _ => simp [idMatches]

theorem getBlog_eq_none {m : BlogManager} {id : Prim} (h : ∀ b ∈ m.blogs, id ≠ .num b.id) :
    m.getBlog id = none := by
  unfold BlogManager.getBlog
  rw [List.find?_eq_none]
  intro b hb hm
  exact h b hb (idMatches_eq_true.1 hm)

/-- C4. When the id is the `id` of no entry of the collection, `updateBlog` returns
`undefined` and leaves the whole state as it was: the collection, the filtered
view, the stored value, and the clock, which is not read. -/
theorem C4_update_unknown_id_is_noop (clock : Nat → Int) (m : BlogManager) (id : Prim)
    (title content : String) (tags : Option (List String))
    (h : ∀ b ∈ m.blogs, id ≠ .num b.id) :
    m.updateBlog clock id title content tags = .ok (m, none) := by
  simp [BlogManager.updateBlog, getBlog_eq_none h]

/-- C4 at the one-entry store: an update under an id that is no id of the
collection. -/
theorem C4_update_unknown_id_witness :
    (∀ b ∈ tripStore.blogs, Prim.num 42 ≠ .num b.id) ∧
      tripStore.updateBlog tickingClock (.num 42) "Trip v2" "Updated" (some ["travel"])
        = .ok (tripStore, none) :=
  ⟨by decide, C4_update_unknown_id_is_noop tickingClock tripStore (.num 42) "Trip v2" "Updated"
    (some ["travel"]) (by decide)⟩

theorem run_preserves (clock : Nat → Int) (P : BlogManager → Prop)
    (hstep : ∀ m op, P m → ∃ m1, step clock m op = .ok m1 ∧ P m1) :
    ∀ (ops : List Op) (m : BlogManager), P m → ∃ m1, run clock m ops = .ok m1 ∧ P m1
  | [], m, h => ⟨m, rfl, h⟩
  | op :: ops, m, h => by
    obtain ⟨m1, h1, hp1⟩ := hstep m op h
    obtain ⟨m2, h2, hp2⟩ := run_preserves clock P hstep ops m1 hp1
    exact ⟨m2, by simp [run, h1, h2], hp2⟩

theorem mem_arraySort {b : Blog} {l : List Blog} : b ∈ arraySort l ↔ b ∈ l :=
  List.mem_insertionSort keepsOrder

theorem step_stamped (clock : Nat → Int) (m : BlogManager) (op : Op) (h : Stamped clock m) :
    ∃ m1, step clock m op = .ok m1 ∧ Stamped clock m1 := by
  cases op with
  | add title content tags =>
    refine ⟨_, rfl, ?_⟩
    intro b hb
    have hb : b ∈ m.blogs ++ [Blog.new (clock m.tick) title content tags
        (clock (m.tick + 1)) (clock (m.tick + 2))] := mem_arraySort.1 hb
    rcases List.mem_append.1 hb with hb | hb
    · obtain ⟨hi, i, hlt, hd⟩ := h b hb
      exact ⟨hi, i, Nat.lt_add_right 3 hlt, hd⟩
    · rw [List.mem_singleton] at hb
      subst hb
      exact ⟨rfl, m.tick + 2, Nat.lt_succ_self _, rfl⟩
  | update id title content tags =>
    cases hg : m.getBlog id with
    | none => exact ⟨m, by simp [step, BlogManager.updateBlog, hg], h⟩
    | some blog =>
      have hi : blog.instanceOfBlog = true := (h blog (getBlog_mem hg).1).1
      refine ⟨BlogManager.saveBlogs (BlogManager.sortBlogs
        { m with
          blogs := updateFirst (idMatches id)
            (fun b => b.update title content tags (clock m.tick)) m.blogs
          tick := m.tick + 1 }), ?_, ?_⟩
      · simp only [step, BlogManager.updateBlog, hg, hi, if_true]
      · intro b hb
        have hb : b ∈ updateFirst (idMatches id)
            (fun b => b.update title content tags (clock m.tick)) m.blogs := mem_arraySort.1 hb
        rcases mem_updateFirst hb with hb | ⟨d, hd, _, rfl⟩
        · obtain ⟨hi, i, hlt, hd⟩ := h b hb
          exact ⟨hi, i, Nat.lt_succ_of_lt hlt, hd⟩
        · exact ⟨(h d hd).1, m.tick, Nat.lt_succ_self _, rfl⟩
  | delete id =>
    refine ⟨_, rfl, ?_⟩
    intro b hb
    exact h b (List.mem_filter.1 hb).1

theorem mem_updateFirst_of_find {p : Blog → Bool} {f : Blog → Blog} {b : Blog} :
    ∀ {l : List Blog}, l.find? p = some b → f b ∈ updateFirst p f l
  | [], h => by simp at h
  | a :: l, h => by
    unfold updateFirst
    by_cases hp : p a = true
    · rw [List.find?_cons_of_pos _ hp] at h
      cases h
      rw [if_pos hp]
      exact List.mem_cons_self _ _
    · rw [List.find?_cons_of_neg _ hp] at h
      rw [if_neg hp]
      exact List.mem_cons_of_mem _ (mem_updateFirst_of_find h)

/-- C5. On a store built from the empty store by `addBlog`, `updateBlog` and
`deleteBlog` calls under a clock whose readings never decrease, `updateBlog` with
the id of an entry of the collection completes and returns the entry `getBlog`
finds for that id, now an entry of the collection, with `id` and `createdDate`
as before, `title`, `content` and `tags` the ones passed, and an `updatedDate`
not older than before. -/
theorem C5_update_existing_id (clock : Nat → Int) (hclock : Monotone clock) (ops : List Op)
    (m : BlogManager) (hrun : run clock emptyStore ops = .ok m) (id : Prim)
    (hid : ∃ b ∈ m.blogs, id = .num b.id) (t c : String) (g : List String) :
    ∃ old m1 new, m.getBlog id = some old ∧
      m.updateBlog clock id t c (some g) = .ok (m1, some new) ∧ new ∈ m1.blogs ∧
      id = .num new.id ∧ new.id = old.id ∧ new.createdDate = old.createdDate ∧
      new.title = t ∧ new.content = c ∧ new.tags = g ∧ notOlder new old := by
  obtain ⟨m', hrun', hst⟩ := run_preserves clock (Stamped clock) (step_stamped clock) ops
    emptyStore (by intro b hb; simp [emptyStore] at hb)
  rw [hrun] at hrun'
  cases hrun'
  cases hg : m.getBlog id with
  | none =>
    obtain ⟨b, hb, hbid⟩ := hid
    have := List.find?_eq_none.1 hg b hb
    exact absurd (idMatches_eq_true.2 hbid) this
  | some old =>
    obtain ⟨hmem, hmatch⟩ := getBlog_mem hg
    obtain ⟨hi, i, hlt, hd⟩ := hst old hmem
    refine ⟨old, BlogManager.saveBlogs (BlogManager.sortBlogs
        { m with
          blogs := updateFirst (idMatches id)
            (fun b => b.update t c (some g) (clock m.tick)) m.blogs
          tick := m.tick + 1 }), old.update t c (some g) (clock m.tick), rfl, ?_, ?_,
        idMatches_eq_true.1 hmatch, rfl, rfl, rfl, rfl, rfl, ?_⟩
    · simp only [BlogManager.updateBlog, hg, hi, if_true]
    · exact mem_arraySort.2 (mem_updateFirst_of_find hg)
    · exact ⟨clock m.tick, clock i, rfl, hd, hclock (Nat.le_of_lt hlt)⟩

theorem tickingClock_monotone : Monotone tickingClock := by
  intro a b h
  simp only [tickingClock]
  omega

/-- C5 at the one-entry store: the "Trip" entry is updated one clock reading after
its creation. -/
theorem C5_update_existing_id_witness :
    Monotone tickingClock ∧
      run tickingClock emptyStore [.add "Trip" "Went to the beach" (some ["travel", "summer"])]
        = .ok tripStore ∧
      (∃ b ∈ tripStore.blogs, Prim.num 1700000000000 = .num b.id) ∧
      ∃ old m1 new, tripStore.getBlog (.num 1700000000000) = some old ∧
        tripStore.updateBlog tickingClock (.num 1700000000000) "Trip v2" "Updated"
          (some ["travel"]) = .ok (m1, some new) ∧ new ∈ m1.blogs ∧
        Prim.num 1700000000000 = .num new.id ∧ new.id = old.id ∧
        new.createdDate = old.createdDate ∧
        new.title = "Trip v2" ∧ new.content = "Updated" ∧ new.tags = ["travel"] ∧
        notOlder new old :=
  ⟨tickingClock_monotone, rfl, by decide,
    C5_update_existing_id tickingClock tickingClock_monotone
      [.add "Trip" "Went to the beach" (some ["travel", "summer"])] tripStore rfl
      (.num 1700000000000) (by decide) "Trip v2" "Updated" ["travel"]⟩

/-! ## Ids -/

/-- C6. Two `addBlog` calls while the clock stays within one millisecond (its
readings repeat and never decrease): the entry the second call returns has the
id of the entry already in the collection, and the ids of the collection it
leaves are not pairwise distinct. -/
theorem C6_same_millisecond_same_id :
    Monotone stalledClock ∧
      run stalledClock emptyStore [.add "First" "One entry" none] = .ok tripStore0 ∧
      tripStore0.blogs.map Blog.id = [1700000000000] ∧
      (tripStore0.addBlog stalledClock "Second" "Same millisecond" none).2.id = 1700000000000 ∧
      (tripStore0.addBlog stalledClock "Second" "Same millisecond" none).1.blogs.map Blog.id
        = [1700000000000, 1700000000000] ∧
      ¬ ((tripStore0.addBlog stalledClock "Second" "Same millisecond" none).1.blogs.map
        Blog.id).Nodup :=
  ⟨fun _ _ _ => le_refl _, rfl, by decide, by decide, by decide, by decide⟩

/-! ## `deleteBlog` -/

theorem idMatches_eq_decide (id : Prim) :
    idMatches id = fun b => decide (id = .num b.id) := by
  funext b
  rw [Bool.eq_iff_iff, idMatches_eq_true, decide_eq_true_iff]

theorem filter_eq_eraseP_of_nodup (id : Prim) : ∀ l : List Blog, (l.map Blog.id).Nodup →
    l.filter (fun b => !idMatches id b) = l.eraseP (idMatches id)
  | [], _ => rfl
  | b :: l, h => by
    rw [List.map_cons, List.nodup_cons] at h
    by_cases hb : idMatches id b = true
    · have hrest : ∀ c ∈ l, (!idMatches id c) = true := by
        intro c hc
        cases hcm : idMatches id c with
        | false => rfl
        | true =>
          have h1 := idMatches_eq_true.1 hb
          rw [idMatches_eq_true.1 hcm] at h1
          have h2 : c.id = b.id := Prim.num.inj h1
          exact absurd (List.mem_map.2 ⟨c, hc, h2⟩) h.1
      rw [List.eraseP_cons_of_pos hb, List.filter_cons_of_neg (by simp [hb])]
      exact List.filter_eq_self.2 hrest
    · rw [List.eraseP_cons_of_neg hb, List.filter_cons_of_pos (by simpa using hb),
        filter_eq_eraseP_of_nodup id l h.2]

/-- C7, as stated, fails: in the store two `addBlog` calls within one millisecond
leave, the two entries share their id, and `deleteBlog` with that id removes both:
the collection goes from two entries to none. -/
theorem C7_delete_removes_two_entries :
    twinStore.blogs.length = 2 ∧
      (twinStore.deleteBlog (.num 1700000000000)).blogs.length = 0 := by
  decide

/-- C7, amended. In a store whose ids are pairwise distinct, `deleteBlog(id)` leaves
the collection with the one entry of that id taken out, if there is one: a
sublist of the collection in which every entry of another id is kept and no
entry of that id is left; the length goes down by one when an entry has the id,
and the collection is unchanged when none has. -/
theorem C7_delete_with_distinct_ids (m : BlogManager) (id : Prim)
    (h : (m.blogs.map Blog.id).Nodup) :
    (m.deleteBlog id).blogs = m.blogs.eraseP (fun b => decide (id = .num b.id)) ∧
      (m.deleteBlog id).blogs.Sublist m.blogs ∧
      (∀ b ∈ m.blogs, id ≠ .num b.id → b ∈ (m.deleteBlog id).blogs) ∧
      (∀ b ∈ (m.deleteBlog id).blogs, id ≠ .num b.id) ∧
      ((∃ b ∈ m.blogs, id = .num b.id) →
        (m.deleteBlog id).blogs.length + 1 = m.blogs.length) ∧
      ((∀ b ∈ m.blogs, id ≠ .num b.id) → (m.deleteBlog id).blogs = m.blogs) := by
  have hdel : (m.deleteBlog id).blogs = m.blogs.filter (fun b => !idMatches id b) := rfl
  refine ⟨?_, ?_, ?_, ?_, ?_, ?_⟩
  · rw [hdel, filter_eq_eraseP_of_nodup id m.blogs h, idMatches_eq_decide]
  · rw [hdel]
    exact List.filter_sublist m.blogs
  · intro b hb hne
    rw [hdel, List.mem_filter]
    refine ⟨hb, ?_⟩
    cases hm : idMatches id b with
    | false => rfl
    | true => exact absurd (idMatches_eq_true.1 hm) hne
  · intro b hb hid
    rw [hdel, List.mem_filter] at hb
    have := idMatches_eq_true.2 hid
    rw [this] at hb
    exact absurd hb.2 (by decide)
  · rintro ⟨b, hb, hid⟩
    rw [hdel, filter_eq_eraseP_of_nodup id m.blogs h,
      List.length_eraseP_of_mem hb (idMatches_eq_true.2 hid)]
    have : 0 < m.blogs.length := List.length_pos_of_mem hb
    omega
  · intro hnone
    rw [hdel]
    refine List.filter_eq_self.2 ?_
    intro b hb
    cases hm : idMatches id b with
    | false => rfl
    | true => exact absurd (idMatches_eq_true.1 hm) (hnone b hb)

/-- C7 at the one-entry store, deleting its entry. -/
theorem C7_delete_with_distinct_ids_witness :
    (tripStore.blogs.map Blog.id).Nodup ∧
      (tripStore.deleteBlog (.num 1700000000000)).blogs
        = tripStore.blogs.eraseP (fun b => decide (Prim.num 1700000000000 = .num b.id)) ∧
      (tripStore.deleteBlog (.num 1700000000000)).blogs.Sublist tripStore.blogs ∧
      (∀ b ∈ tripStore.blogs, Prim.num 1700000000000 ≠ .num b.id →
        b ∈ (tripStore.deleteBlog (.num 1700000000000)).blogs) ∧
      (∀ b ∈ (tripStore.deleteBlog (.num 1700000000000)).blogs,
        Prim.num 1700000000000 ≠ .num b.id) ∧
      ((∃ b ∈ tripStore.blogs, Prim.num 1700000000000 = .num b.id) →
        (tripStore.deleteBlog (.num 1700000000000)).blogs.length + 1
          = tripStore.blogs.length) ∧
      ((∀ b ∈ tripStore.blogs, Prim.num 1700000000000 ≠ .num b.id) →
        (tripStore.deleteBlog (.num 1700000000000)).blogs = tripStore.blogs) :=
  ⟨by decide, C7_delete_with_distinct_ids tripStore (.num 1700000000000) (by decide)⟩

/-! ## `filterBlogsByTag` -/

/-- C8. For every store and every tag, a text or absent, `filterBlogsByTag` leaves
the collection as it is and sets the filtered view to what the specification
defines: the full collection for the empty or absent tag, otherwise the entries
whose tags have an element equal to the tag, in the collection's order. -/
theorem C8_filterByTag_meets_spec (m : BlogManager) (tag : Option String) :
    (m.filterBlogsByTag (tagArgument tag)).filteredBlogs = filterByTagSpec m.blogs tag ∧
      (m.filterBlogsByTag (tagArgument tag)).blogs = m.blogs := by
  cases tag with
  | none => exact ⟨rfl, rfl⟩
  | some t =>
    by_cases ht : t = ""
    · subst ht
      exact ⟨rfl, rfl⟩
    · have htr : (Prim.str t).truthy = true := by simp [Prim.truthy, ht]
      refine ⟨?_, ?_⟩
      · simp only [BlogManager.filterBlogsByTag, tagArgument, htr, if_true, filterByTagSpec,
          ht, if_false]
        congr 1
        funext b
        simp [tagsInclude]
      · simp only [BlogManager.filterBlogsByTag, tagArgument, htr, if_true]

/-! ## Persistence -/

/-- C9, as stated, fails: `sortBlogs` on the store constructed with nothing persisted
writes nothing, so the storage key stays absent and does not hold the
serialization of the collection. -/
theorem C9_sort_does_not_persist :
    (BlogManager.new none 0 = .ok emptyStore) ∧
      emptyStore.sortBlogs.storage = none ∧
      emptyStore.sortBlogs.storage ≠ some (stringify emptyStore.sortBlogs.blogs) :=
  ⟨rfl, by decide, by decide⟩

/-- C9, amended. For every store state, after `addBlog`, after an `updateBlog` that
returns an entry, and after `deleteBlog`, the storage key holds the serialization
of the entire collection; `sortBlogs` by itself leaves the stored value as it
was. -/
theorem C9_persist_after_mutation (clock : Nat → Int) (m : BlogManager) :
    (∀ title content tags,
        (m.addBlog clock title content tags).1.storage
          = some (stringify (m.addBlog clock title content tags).1.blogs)) ∧
      (∀ id title content tags m1 b,
        m.updateBlog clock id title content tags = .ok (m1, some b) →
          m1.storage = some (stringify m1.blogs)) ∧
      (∀ id, (m.deleteBlog id).storage = some (stringify (m.deleteBlog id).blogs)) ∧
      m.sortBlogs.storage = m.storage := by
  refine ⟨fun _ _ _ => rfl, ?_, fun _ => rfl, rfl⟩
  intro id title content tags m1 b hu
  unfold BlogManager.updateBlog at hu
  cases hg : m.getBlog id with
  | none =>
    rw [hg] at hu
    simp at hu
  | some blog =>
    rw [hg] at hu
    by_cases hi : blog.instanceOfBlog = true
    · simp only [hi, if_true, Except.ok.injEq, Prod.mk.injEq] at hu
      rw [← hu.1]
      rfl
    · simp [hi] at hu

/-- C9 at the one-entry store: the update of its entry leaves the serialization of
the collection under the storage key. -/
theorem C9_persist_after_mutation_witness :
    ∃ m1 b,
      tripStore.updateBlog tickingClock (.num 1700000000000) "Trip v2" "Updated"
        (some ["travel"]) = .ok (m1, some b) ∧
      m1.storage = some (stringify m1.blogs) :=
  ⟨_, _, rfl,
    (C9_persist_after_mutation tickingClock tripStore).2.1 (.num 1700000000000) "Trip v2"
      "Updated" (some ["travel"]) _ _ rfl⟩

/-! ## `handleSubmit` -/

/-- C10. When the title or the content of the form is empty after trimming,
`handleSubmit` completes and changes nothing, whatever the tags text and the
edit id are: the store (collection, filtered view, stored value) and the form
are as before. -/
theorem C10_blank_submit_changes_nothing (clock : Nat → Int) (page : Page) (ui : BlogUI)
    (h : jsTrim ui.titleInput = "" ∨ jsTrim ui.contentInput = "") :
    ui.handleSubmit clock page = .ok ui := by
  unfold BlogUI.handleSubmit
  rcases h with h | h <;> simp [h]

/-- C10 at a form in edit mode whose title is three blanks. -/
theorem C10_blank_submit_witness :
    (jsTrim blankTitleForm.titleInput = "" ∨ jsTrim blankTitleForm.contentInput = "") ∧
      blankTitleForm.handleSubmit tickingClock plainPage = .ok blankTitleForm :=
  ⟨Or.inl (by decide),
    C10_blank_submit_changes_nothing tickingClock plainPage blankTitleForm (Or.inl (by decide))⟩

/-! ## Splitting and trimming -/

theorem splitComma_join : ∀ cs : List Char,
    (splitComma cs).1 ++ joinComma (splitComma cs).2 = cs
  | [] => rfl
  | c :: cs => by
    by_cases hc : c = ','
    · subst hc
      simp only [splitComma, if_true, List.nil_append, joinComma]
      rw [splitComma_join cs]
    · simp only [splitComma, if_neg hc, List.cons_append]
      rw [splitComma_join cs]

theorem splitComma_no_comma : ∀ cs : List Char,
    ',' ∉ (splitComma cs).1 ∧ ∀ p ∈ (splitComma cs).2, ',' ∉ p
  | [] => by simp [splitComma]
  | c :: cs => by
    obtain ⟨h1, h2⟩ := splitComma_no_comma cs
    by_cases hc : c = ','
    · subst hc
      simp only [splitComma, if_true]
      refine ⟨by simp, ?_⟩
      intro p hp
      rcases List.mem_cons.1 hp with rfl | hp
      · exact h1
      · exact h2 p hp
    · simp only [splitComma, if_neg hc]
      refine ⟨?_, h2⟩
      intro hm
      rcases List.mem_cons.1 hm with h | h
      · exact hc h.symm
      · exact h1 h

theorem splitComma_length : ∀ cs : List Char,
    (splitComma cs).2.length = cs.count ','
  | [] => rfl
  | c :: cs => by
    by_cases hc : c = ','
    · subst hc
      simp only [splitComma, if_true, List.length_cons, List.count_cons_self]
      rw [splitComma_length cs]
    · simp only [splitComma, if_neg hc]
      rw [List.count_cons_of_ne (Ne.symm hc), splitComma_length cs]

theorem intercalate_go_comma_data : ∀ (as : List String) (acc : String),
    (String.intercalate.go acc "," as).data = acc.data ++ joinComma (as.map String.data)
  | [], acc => by simp [String.intercalate.go, joinComma]
  | a :: as, acc => by
    rw [String.intercalate.go, intercalate_go_comma_data as]
    simp [joinComma, String.data_append]

/-- What `split(",")` gives, for every text: joined by commas the pieces are the
text again, no piece holds a comma, and there is one piece more than the text
has commas. -/
theorem jsSplitComma_spec (s : String) :
    String.intercalate "," (jsSplitComma s) = s ∧
      (∀ p ∈ jsSplitComma s, ',' ∉ p.data) ∧
      (jsSplitComma s).length = s.data.count ',' + 1 := by
  refine ⟨?_, ?_, ?_⟩
  · apply String.ext
    unfold jsSplitComma
    rw [List.map_cons, String.intercalate, intercalate_go_comma_data, List.map_map]
    have hid : (String.data ∘ String.mk) = id := rfl
    rw [hid, List.map_id]
    exact splitComma_join s.data
  · intro p hp
    unfold jsSplitComma at hp
    obtain ⟨q, hq, rfl⟩ := List.mem_map.1 hp
    rcases List.mem_cons.1 hq with rfl | hq
    · exact (splitComma_no_comma s.data).1
    · exact (splitComma_no_comma s.data).2 q hq
  · unfold jsSplitComma
    rw [List.length_map, List.length_cons, splitComma_length]

theorem trimEnd_append_rest (y : List Char) :
    trimEnd y ++ (y.reverse.takeWhile isWhiteSpace).reverse = y := by
  unfold trimEnd
  rw [← List.reverse_append, List.takeWhile_append_dropWhile, List.reverse_reverse]

theorem trimStart_head (cs : List Char) (c : Char) (h : (trimStart cs).head? = some c) :
    isWhiteSpace c = false := by
  have := List.head?_dropWhile_not isWhiteSpace cs
  unfold trimStart at h
  rw [h] at this
  exact this

theorem trimEnd_last (y : List Char) (c : Char) (h : (trimEnd y).getLast? = some c) :
    isWhiteSpace c = false := by
  have hne : trimEnd y ≠ [] := by
    intro he
    rw [he] at h
    simp at h
  have hl := List.rdropWhile_last_not isWhiteSpace y hne
  rw [List.getLast?_eq_getLast _ hne] at h
  have hc : (trimEnd y).getLast hne = c := Option.some.inj h
  rw [← hc]
  simpa using hl

/-- What `trim()` gives, for every text: the text is the trimmed text between
two runs of white space, and the trimmed text neither starts nor ends with white
space. -/
theorem jsTrim_spec (s : String) :
    (∃ a b : List Char, (∀ c ∈ a, isWhiteSpace c = true) ∧ (∀ c ∈ b, isWhiteSpace c = true) ∧
        s.data = a ++ (jsTrim s).data ++ b) ∧
      (∀ c, (jsTrim s).data.head? = some c → isWhiteSpace c = false) ∧
      (∀ c, (jsTrim s).data.getLast? = some c → isWhiteSpace c = false) := by
  refine ⟨⟨s.data.takeWhile isWhiteSpace,
      ((trimStart s.data).reverse.takeWhile isWhiteSpace).reverse, ?_, ?_, ?_⟩, ?_, ?_⟩
  · intro c hc
    exact List.mem_takeWhile_imp hc
  · intro c hc
    exact List.mem_takeWhile_imp (List.mem_reverse.1 hc)
  · show s.data = _ ++ trimEnd (trimStart s.data) ++ _
    rw [List.append_assoc, trimEnd_append_rest]
    exact (List.takeWhile_append_dropWhile isWhiteSpace s.data).symm
  · intro c hc
    have hc : (trimEnd (trimStart s.data)).head? = some c := hc
    have hpre : trimEnd (trimStart s.data) <+: trimStart s.data :=
      List.rdropWhile_prefix isWhiteSpace _
    obtain ⟨r, hr⟩ := hpre
    cases hz : trimEnd (trimStart s.data) with
    | nil => rw [hz] at hc; simp at hc
    | cons d z =>
      rw [hz] at hc hr
      have hd : d = c := by simpa using hc
      subst hd
      exact trimStart_head s.data d (by rw [← hr]; rfl)
  · intro c hc
    exact trimEnd_last (trimStart s.data) c hc

theorem jsTrim_idempotent (s : String) : jsTrim (jsTrim s) = jsTrim s := by
  obtain ⟨_, hhead, hlast⟩ := jsTrim_spec s
  apply String.ext
  show trimEnd (trimStart (jsTrim s).data) = (jsTrim s).data
  have hstart : trimStart (jsTrim s).data = (jsTrim s).data := by
    cases hz : (jsTrim s).data with
    | nil => rfl
    | cons d z =>
      have hd : isWhiteSpace d = false := hhead d (by rw [hz]; rfl)
      simp [trimStart, List.dropWhile, hd]
  rw [hstart]
  refine (List.rdropWhile_eq_self_iff (p := isWhiteSpace)).2 ?_
  intro hne
  have := hlast _ (List.getLast?_eq_getLast _ hne)
  simp [this]

theorem jsTrim_no_comma {s : String} (h : ',' ∉ s.data) : ',' ∉ (jsTrim s).data := by
  intro hm
  have h1 : (jsTrim s).data <+: trimStart s.data := List.rdropWhile_prefix isWhiteSpace _
  have h2 : trimStart s.data <:+ s.data := List.dropWhile_suffix _
  exact h (h2.subset (h1.subset hm))

/-- C11. For every tags text, the tags `handleSubmit` works with are the text
trimmed, split at the commas, each piece trimmed.  The split is the one of
`split(",")`: joined by commas the pieces are the text, no piece holds a comma,
there is one piece more than commas.  The trimming is the one of `trim()`: the
text is the trimmed text between two runs of white space, and the trimmed text
neither starts nor ends with white space.  So the sequence has one tag more than
the trimmed text has commas, at least one, each tag without comma and unchanged
by trimming; for the empty text it is the one empty tag.  With a title and a
content that are not empty after trimming, these are the tags `handleSubmit`
passes to `updateBlog`, when the edit id is truthy, or else to `addBlog`. -/
theorem C11_tags_of_submit (clock : Nat → Int) (page : Page) (ui : BlogUI) :
    parseTags ui.tagsInput = (jsSplitComma (jsTrim ui.tagsInput)).map jsTrim ∧
      (∀ s : String, String.intercalate "," (jsSplitComma s) = s ∧
        (∀ p ∈ jsSplitComma s, ',' ∉ p.data) ∧
        (jsSplitComma s).length = s.data.count ',' + 1) ∧
      (∀ s : String,
        (∃ a b : List Char, (∀ c ∈ a, isWhiteSpace c = true) ∧
          (∀ c ∈ b, isWhiteSpace c = true) ∧ s.data = a ++ (jsTrim s).data ++ b) ∧
        (∀ c, (jsTrim s).data.head? = some c → isWhiteSpace c = false) ∧
        (∀ c, (jsTrim s).data.getLast? = some c → isWhiteSpace c = false)) ∧
      (parseTags ui.tagsInput).length = (jsTrim ui.tagsInput).data.count ',' + 1 ∧
      (∀ t ∈ parseTags ui.tagsInput, ',' ∉ t.data ∧ jsTrim t = t) ∧
      0 < (parseTags ui.tagsInput).length ∧
      parseTags "" = [""] ∧
      parseTags " travel , summer,,hot sun " = ["travel", "summer", "", "hot sun"] ∧
      (jsTrim ui.titleInput ≠ "" → jsTrim ui.contentInput ≠ "" →
        (ui.handleSubmit clock page).map BlogUI.blogManager =
          if (parseInt ui.editIdInput).truthy then
            (ui.blogManager.updateBlog clock (parseInt ui.editIdInput) (jsTrim ui.titleInput)
              (jsTrim ui.contentInput) (some (parseTags ui.tagsInput))).map Prod.fst
          else
            .ok (ui.blogManager.addBlog clock (jsTrim ui.titleInput) (jsTrim ui.contentInput)
              (some (parseTags ui.tagsInput))).1) := by
  have hlen : (parseTags ui.tagsInput).length = (jsTrim ui.tagsInput).data.count ',' + 1 := by
    unfold parseTags
    rw [List.length_map]
    exact (jsSplitComma_spec (jsTrim ui.tagsInput)).2.2
  refine ⟨rfl, jsSplitComma_spec, jsTrim_spec, hlen, ?_, ?_, by decide, by decide, ?_⟩
  · intro t ht
    unfold parseTags at ht
    obtain ⟨p, hp, rfl⟩ := List.mem_map.1 ht
    exact ⟨jsTrim_no_comma ((jsSplitComma_spec (jsTrim ui.tagsInput)).2.1 p hp),
      jsTrim_idempotent p⟩
  · rw [hlen]
    exact Nat.succ_pos _
  · intro ht hc
    have hguard : (jsTrim ui.titleInput != "" && jsTrim ui.contentInput != "") = true := by
      simp [ht, hc]
    unfold BlogUI.handleSubmit
    simp only [hguard, if_true]
    by_cases he : (parseInt ui.editIdInput).truthy = true
    · simp only [he, if_true]
      cases ui.blogManager.updateBlog clock (parseInt ui.editIdInput) (jsTrim ui.titleInput)
        (jsTrim ui.contentInput) (some (parseTags ui.tagsInput)) with
      | error e => rfl
      | ok r => rfl
    · rw [if_neg he, if_neg he]
      rfl

/-- C11 at a form in create mode whose tags text has blanks around the tags and
an empty tag between two commas: the entry is created with the four tags. -/
theorem C11_tags_of_submit_witness :
    jsTrim taggedForm.titleInput ≠ "" ∧ jsTrim taggedForm.contentInput ≠ "" ∧
      parseTags taggedForm.tagsInput = ["travel", "summer", "", "hot sun"] ∧
      (taggedForm.handleSubmit tickingClock plainPage).map BlogUI.blogManager =
        .ok (emptyStore.addBlog tickingClock "Trip" "Went to the beach"
          (some ["travel", "summer", "", "hot sun"])).1 :=
  ⟨by decide, by decide, by decide,
    ((C11_tags_of_submit tickingClock plainPage taggedForm).2.2.2.2.2.2.2.2 (by decide)
      (by decide)).trans rfl⟩

/-! ## Creation and update dates -/

/-- C12, as stated, fails: under a clock that advances between the two `new Date()`
of the constructor, the entry `addBlog` returns has a `createdDate` one
millisecond before its `updatedDate`. -/
theorem C12_created_differs_from_updated :
    (emptyStore.addBlog tickingClock "Trip" "Went to the beach"
        (some ["travel", "summer"])).2.createdDate = .obj 1700000000001 ∧
      (emptyStore.addBlog tickingClock "Trip" "Went to the beach"
        (some ["travel", "summer"])).2.updatedDate = .obj 1700000000002 ∧
      (emptyStore.addBlog tickingClock "Trip" "Went to the beach"
        (some ["travel", "summer"])).2.createdDate ≠
      (emptyStore.addBlog tickingClock "Trip" "Went to the beach"
        (some ["travel", "summer"])).2.updatedDate := by
  decide

/-- C12, amended. For every store state and all arguments, the entry `addBlog`
returns carries in `createdDate` and `updatedDate` the two clock readings that
follow the reading of the id, and the two dates are equal whenever these two
readings are equal. -/
theorem C12_created_equals_updated (clock : Nat → Int) (m : BlogManager)
    (title content : String) (tags : Option (List String))
    (h : clock (m.tick + 1) = clock (m.tick + 2)) :
    (m.addBlog clock title content tags).2.createdDate = .obj (clock (m.tick + 1)) ∧
      (m.addBlog clock title content tags).2.updatedDate = .obj (clock (m.tick + 2)) ∧
      (m.addBlog clock title content tags).2.createdDate
        = (m.addBlog clock title content tags).2.updatedDate := by
  refine ⟨rfl, rfl, ?_⟩
  show DateVal.obj (clock (m.tick + 1)) = DateVal.obj (clock (m.tick + 2))
  rw [h]

/-- C12 under the stalled clock: the entry created on the empty store has equal
dates. -/
theorem C12_created_equals_updated_witness :
    stalledClock (emptyStore.tick + 1) = stalledClock (emptyStore.tick + 2) ∧
      (emptyStore.addBlog stalledClock "First" "One entry" none).2.createdDate
        = (emptyStore.addBlog stalledClock "First" "One entry" none).2.updatedDate :=
  ⟨rfl, (C12_created_equals_updated stalledClock emptyStore "First" "One entry" none rfl).2.2⟩

theorem step_dated (clock : Nat → Int) (m : BlogManager) (op : Op) (h : Dated clock m) :
    ∃ m1, step clock m op = .ok m1 ∧ Dated clock m1 := by
  cases op with
  | add title content tags =>
    refine ⟨_, rfl, ?_⟩
    intro b hb
    have hb : b ∈ m.blogs ++ [Blog.new (clock m.tick) title content tags
        (clock (m.tick + 1)) (clock (m.tick + 2))] := mem_arraySort.1 hb
    rcases List.mem_append.1 hb with hb | hb
    · obtain ⟨hi, i, j, hij, hlt, hc, hu⟩ := h b hb
      exact ⟨hi, i, j, hij, Nat.lt_add_right 3 hlt, hc, hu⟩
    · rw [List.mem_singleton] at hb
      subst hb
      exact ⟨rfl, m.tick + 1, m.tick + 2, Nat.le_succ _, Nat.lt_succ_self _, rfl, rfl⟩
  | update id title content tags =>
    cases hg : m.getBlog id with
    | none => exact ⟨m, by simp [step, BlogManager.updateBlog, hg], h⟩
    | some blog =>
      have hi : blog.instanceOfBlog = true := (h blog (getBlog_mem hg).1).1
      refine ⟨BlogManager.saveBlogs (BlogManager.sortBlogs
        { m with
          blogs := updateFirst (idMatches id)
            (fun b => b.update title content tags (clock m.tick)) m.blogs
          tick := m.tick + 1 }), ?_, ?_⟩
      · simp only [step, BlogManager.updateBlog, hg, hi, if_true]
      · intro b hb
        have hb : b ∈ updateFirst (idMatches id)
            (fun b => b.update title content tags (clock m.tick)) m.blogs := mem_arraySort.1 hb
        rcases mem_updateFirst hb with hb | ⟨d, hd, _, rfl⟩
        · obtain ⟨hi, i, j, hij, hlt, hc, hu⟩ := h b hb
          exact ⟨hi, i, j, hij, Nat.lt_succ_of_lt hlt, hc, hu⟩
        · obtain ⟨hi, i, j, hij, hlt, hc, _⟩ := h d hd
          exact ⟨hi, i, m.tick, Nat.le_of_lt (Nat.lt_of_le_of_lt hij hlt),
            Nat.lt_succ_self _, hc, rfl⟩
  | delete id =>
    refine ⟨_, rfl, ?_⟩
    intro b hb
    exact h b (List.mem_filter.1 hb).1

/-- C13. Started on the empty store under a clock whose readings never decrease,
every sequence of `addBlog`, `updateBlog` and `deleteBlog` calls runs to its end,
and every entry of the collection it leaves carries two `Date` objects, the time
value of `createdDate` less than or equal to that of `updatedDate`. -/
theorem C13_created_not_after_updated (clock : Nat → Int) (hclock : Monotone clock)
    (ops : List Op) :
    ∃ m, run clock emptyStore ops = .ok m ∧
      ∀ b ∈ m.blogs, ∃ c u, b.createdDate = .obj c ∧ b.updatedDate = .obj u ∧ c ≤ u := by
  obtain ⟨m, hrun, hd⟩ := run_preserves clock (Dated clock) (step_dated clock) ops
    emptyStore (by intro b hb; simp [emptyStore] at hb)
  refine ⟨m, hrun, ?_⟩
  intro b hb
  obtain ⟨_, i, j, hij, _, hc, hu⟩ := hd b hb
  exact ⟨clock i, clock j, hc, hu, hclock hij⟩

/-- C13 for a creation followed by an update of the entry, under the ticking
clock. -/
theorem C13_created_not_after_updated_witness :
    Monotone tickingClock ∧
      ∃ m, run tickingClock emptyStore
          [.add "Trip" "Went to the beach" (some ["travel", "summer"]),
           .update (.num 1700000000000) "Trip v2" "Updated" (some ["travel"])] = .ok m ∧
        ∀ b ∈ m.blogs, ∃ c u, b.createdDate = .obj c ∧ b.updatedDate = .obj u ∧ c ≤ u :=
  ⟨tickingClock_monotone, C13_created_not_after_updated tickingClock tickingClock_monotone _⟩

/-! ## `sortBlogs` -/

theorem keepsOrder_of_same_date {a b : Blog} (h : a.updatedDate = b.updatedDate) :
    keepsOrder a b := by
  unfold keepsOrder compareFn
  rw [h]
  cases b.updatedDate <;> simp [DateVal.toNumber]

/-- What `sortBlogs` does to every collection: the result is a permutation, two
entries with the same `updatedDate` keep their relative order, and when all
entries carry `Date` objects the result is in descending order of
`updatedDate`. -/
theorem sortBlogs_stable_descending (m : BlogManager) :
    m.sortBlogs.blogs.Perm m.blogs ∧
      (∀ a b, a.updatedDate = b.updatedDate → [a, b].Sublist m.blogs →
        [a, b].Sublist m.sortBlogs.blogs) ∧
      (AllFresh m.blogs → List.Chain' notOlder m.sortBlogs.blogs) :=
  ⟨List.perm_insertionSort keepsOrder m.blogs,
    fun _ _ hab hsub => List.pair_sublist_insertionSort (keepsOrder_of_same_date hab) hsub,
    fun hf => List.Pairwise.chain' (pairwise_arraySort m.blogs hf)⟩

/-- C14. The page is loaded again on the one-entry store and an entry is added:
the collection holds the reloaded entry, its `updatedDate` a string, in front of
the new entry, whose `updatedDate` is three milliseconds later; `sortBlogs`
leaves this order, which is ascending, not descending, in `updatedDate`. -/
theorem C14_sort_after_reload_not_descending :
    BlogManager.new tripStore.storage tripStore.tick = .ok reloadedStore ∧
      reloadedThenAdded.blogs.map Blog.updatedDate
        = [.iso 1700000000002, .obj 1700000000005] ∧
      reloadedThenAdded.sortBlogs.blogs = reloadedThenAdded.blogs ∧
      reloadedThenAdded.sortBlogs.blogs.map (fun b => b.updatedDate.time)
        = [1700000000002, 1700000000005] ∧
      ¬ List.Chain' notOlder reloadedThenAdded.sortBlogs.blogs := by
  refine ⟨rfl, by decide, by decide, by decide, ?_⟩
  have hb : reloadedThenAdded.sortBlogs.blogs =
      [{ instanceOfBlog := false, id := 1700000000000, title := "Trip",
         content := "Went to the beach", tags := ["travel", "summer"],
         createdDate := .iso 1700000000001, updatedDate := .iso 1700000000002 },
       { instanceOfBlog := true, id := 1700000000003, title := "Second",
         content := "After the reload", tags := [],
         createdDate := .obj 1700000000004, updatedDate := .obj 1700000000005 }] := by
    decide
  rw [hb]
  intro hc
  obtain ⟨x, y, hx, _, _⟩ := List.chain'_pair.1 hc
  exact DateVal.noConfusion hx

/-- C15. For every store state, whatever its filtered view, the filtered view is
the full collection after `addBlog`, after `deleteBlog` with any id, and after
`sortBlogs`. -/
theorem C15_mutations_reset_filter (clock : Nat → Int) (m : BlogManager) :
    (∀ title content tags,
        (m.addBlog clock title content tags).1.filteredBlogs
          = (m.addBlog clock title content tags).1.blogs) ∧
      (∀ id, (m.deleteBlog id).filteredBlogs = (m.deleteBlog id).blogs) ∧
      m.sortBlogs.filteredBlogs = m.sortBlogs.blogs :=
  ⟨fun _ _ _ => rfl, fun _ => rfl, rfl⟩

/-! ## The form -/

theorem updateBlog_ok_of_instances (clock : Nat → Int) (m : BlogManager) (id : Prim)
    (title content : String) (tags : Option (List String))
    (h : ∀ b ∈ m.blogs, b.instanceOfBlog = true) :
    ∃ r, m.updateBlog clock id title content tags = .ok r := by
  unfold BlogManager.updateBlog
  cases hg : m.getBlog id with
  | none => exact ⟨_, rfl⟩
  | some blog =>
    have hi : blog.instanceOfBlog = true := h blog (getBlog_mem hg).1
    simp only [hi, if_true]
    exact ⟨_, rfl⟩

/-- C16, as stated, fails: a form in editing mode whose title is three blanks is
left by `handleSubmit` as it was, in editing mode and not in create mode. -/
theorem C16_blank_submit_stays_editing :
    blankTitleForm.editingMode ∧
      blankTitleForm.handleSubmit tickingClock plainPage = .ok blankTitleForm ∧
      ¬ blankTitleForm.createMode := by
  refine ⟨⟨by decide, rfl⟩, rfl, ?_⟩
  rintro ⟨h, _⟩
  exact absurd h (by decide)

/-- C16, amended. For every content of the fields, from editing mode as from create
mode: `resetForm`, which the cancel button runs, leaves the form in create mode;
`handleSubmit` with a title and a content that are not empty after trimming, on
a store whose entries are `Blog` objects, completes and leaves the form in
create mode; `handleSubmit` with an empty title or content leaves the form as
it is. -/
theorem C16_form_modes (clock : Nat → Int) (page : Page) (ui : BlogUI) :
    (BlogUI.resetForm page ui).createMode ∧
      (jsTrim ui.titleInput ≠ "" → jsTrim ui.contentInput ≠ "" →
        (∀ b ∈ ui.blogManager.blogs, b.instanceOfBlog = true) →
        ∃ ui1, ui.handleSubmit clock page = .ok ui1 ∧ ui1.createMode) ∧
      (jsTrim ui.titleInput = "" ∨ jsTrim ui.contentInput = "" →
        ui.handleSubmit clock page = .ok ui) := by
  refine ⟨⟨rfl, rfl⟩, ?_, ?_⟩
  · intro ht hc hinst
    have hguard : (jsTrim ui.titleInput != "" && jsTrim ui.contentInput != "") = true := by
      simp [ht, hc]
    unfold BlogUI.handleSubmit
    simp only [hguard, if_true]
    by_cases he : (parseInt ui.editIdInput).truthy = true
    · rw [if_pos he]
      obtain ⟨r, hr⟩ := updateBlog_ok_of_instances clock ui.blogManager (parseInt ui.editIdInput)
        (jsTrim ui.titleInput) (jsTrim ui.contentInput) (some (parseTags ui.tagsInput)) hinst
      rw [hr]
      exact ⟨_, rfl, rfl, rfl⟩
    · rw [if_neg he]
      exact ⟨_, rfl, rfl, rfl⟩
  · intro h
    unfold BlogUI.handleSubmit
    rcases h with h | h <;> simp [h]

/-- C16 at a form in editing mode with a title and a content: the submit leaves
create mode. -/
theorem C16_form_modes_witness :
    editingForm.editingMode ∧
      jsTrim editingForm.titleInput ≠ "" ∧ jsTrim editingForm.contentInput ≠ "" ∧
      (∀ b ∈ editingForm.blogManager.blogs, b.instanceOfBlog = true) ∧
      ∃ ui1, editingForm.handleSubmit tickingClock plainPage = .ok ui1 ∧ ui1.createMode :=
  ⟨⟨by decide, rfl⟩, by decide, by decide, by decide,
    (C16_form_modes tickingClock plainPage editingForm).2.1 (by decide) (by decide) (by decide)⟩

/-! ## After a reload -/

/-- C17. The page is loaded again on the one-entry store: the filtered view holds
the entry, and `render` maps it to the empty string, since it is no instance of
`Blog`; the list shows nothing. -/
theorem C17_render_skips_reloaded_entry :
    BlogManager.new tripStore.storage tripStore.tick = .ok reloadedStore ∧
      reloadedStore.filteredBlogs.length = 1 ∧
      reloadedStore.filteredBlogs.map (renderItem plainPage) = [""] ∧
      (BlogUI.render plainPage { newEntryForm with blogManager := reloadedStore }).blogList
        = "" := by
  refine ⟨rfl, by decide, by decide, by decide⟩

/-- C18. The page is loaded again on the one-entry store: `getBlog` finds the entry
under its id, and `updateBlog` with that id raises a `TypeError`, the entry being
a plain object without the method `update`; nothing is overwritten and nothing
is returned. -/
theorem C18_update_after_reload_throws :
    BlogManager.new tripStore.storage tripStore.tick = .ok reloadedStore ∧
      (∃ b, reloadedStore.getBlog (.num 1700000000000) = some b ∧ b.instanceOfBlog = false ∧
        b.title = "Trip") ∧
      reloadedStore.updateBlog tickingClock (.num 1700000000000) "Trip v2" "Updated"
        (some ["travel"]) = .error .typeError :=
  ⟨rfl, ⟨_, rfl, rfl, rfl⟩, rfl⟩

/-! ## Delete then get -/

/-- C19. For every store state, also one in which several entries share an id, and
every id: after `deleteBlog(id)` no entry of the collection has that id, and
`getBlog(id)` returns `undefined`. -/
theorem C19_delete_then_get (m : BlogManager) (id : Prim) :
    (∀ b ∈ (m.deleteBlog id).blogs, id ≠ .num b.id) ∧
      (m.deleteBlog id).getBlog id = none := by
  have hnone : ∀ b ∈ (m.deleteBlog id).blogs, id ≠ .num b.id := by
    intro b hb hid
    have hb : b ∈ m.blogs.filter (fun b => !idMatches id b) := hb
    rw [List.mem_filter, idMatches_eq_true.2 hid] at hb
    exact absurd hb.2 (by decide)
  exact ⟨hnone, getBlog_eq_none hnone⟩

/-! ## Tags through the form -/

theorem trimEnd_eq_rdropWhile (cs : List Char) : trimEnd cs = cs.rdropWhile isWhiteSpace := rfl

theorem intercalate_go_data : ∀ (as : List String) (acc : String),
    (String.intercalate.go acc ", " as).data = acc.data ++ joinRest (as.map String.data)
  | [], acc => by simp [String.intercalate.go, joinRest]
  | a :: as, acc => by
    rw [String.intercalate.go, intercalate_go_data as]
    simp [joinRest, String.data_append]

theorem intercalate_data (t : String) (rest : List String) :
    (String.intercalate ", " (t :: rest)).data = t.data ++ joinRest (rest.map String.data) := by
  rw [String.intercalate, intercalate_go_data]

theorem trimEnd_length_le (cs : List Char) : (trimEnd cs).length ≤ cs.length := by
  rw [trimEnd_eq_rdropWhile]
  exact List.IsPrefix.length_le (List.rdropWhile_prefix _ _)

theorem trimStart_eq_self_of_trim {d : List Char} (h : trimEnd (trimStart d) = d) :
    trimStart d = d := by
  have hs : trimStart d <:+ d := List.dropWhile_suffix _
  refine hs.eq_of_length_le ?_
  have := trimEnd_length_le (trimStart d)
  rw [h] at this
  exact this

theorem trimEnd_eq_self_of_trim {d : List Char} (h : trimEnd (trimStart d) = d) :
    trimEnd d = d := by
  have := trimStart_eq_self_of_trim h
  rw [this] at h
  exact h

theorem splitComma_of_not_mem : ∀ {t : List Char}, ',' ∉ t → splitComma t = (t, [])
  | [], _ => rfl
  | c :: t, h => by
    have hc : c ≠ ',' := fun e => h (e ▸ List.mem_cons_self _ _)
    have ht : ',' ∉ t := fun e => h (List.mem_cons_of_mem _ e)
    rw [splitComma, if_neg hc, splitComma_of_not_mem ht]

theorem splitComma_append_comma : ∀ {t : List Char} (z : List Char), ',' ∉ t →
    splitComma (t ++ ',' :: z) = (t, (splitComma z).1 :: (splitComma z).2)
  | [], z, _ => by simp [splitComma]
  | c :: t, z, h => by
    have hc : c ≠ ',' := fun e => h (e ▸ List.mem_cons_self _ _)
    have ht : ',' ∉ t := fun e => h (List.mem_cons_of_mem _ e)
    rw [List.cons_append, splitComma, if_neg hc, splitComma_append_comma z ht]

theorem dropWhile_append_cons_of_neg {p : Char → Bool} {c : Char} (hc : p c = false) (r : List Char) :
    ∀ l : List Char, (l ++ c :: r).dropWhile p = l.dropWhile p ++ c :: r
  | [] => by simp [List.dropWhile, hc]
  | a :: l => by
    by_cases ha : p a = true
    · simp [List.dropWhile, ha, dropWhile_append_cons_of_neg hc r l]
    · simp [List.dropWhile, ha]

theorem trimEnd_append_cons {c : Char} (hc : isWhiteSpace c = false) (a y : List Char) :
    trimEnd (a ++ c :: y) = a ++ c :: trimEnd y := by
  unfold trimEnd
  rw [List.reverse_append, List.reverse_cons, List.append_assoc, List.singleton_append,
    dropWhile_append_cons_of_neg hc]
  simp

theorem trimStart_space_cons (d : List Char) : trimStart (' ' :: d) = trimStart d := by
  have h : isWhiteSpace ' ' = true := by decide
  simp [trimStart, List.dropWhile, h]

theorem trim_prefixed {d : List Char} (h : Trimmed d) {pre : List Char}
    (hpre : pre = [] ∨ pre = [' ']) : trimEnd (trimStart (pre ++ d)) = d := by
  rcases hpre with rfl | rfl
  · rw [List.nil_append, h.2.1, h.2.2]
  · rw [List.singleton_append, trimStart_space_cons, h.2.1, h.2.2]

theorem trimEnd_prefixed {d : List Char} (h : Trimmed d) {pre : List Char}
    (hpre : pre = [] ∨ pre = [' ']) :
    trimEnd (trimStart (trimEnd (pre ++ d))) = d := by
  rcases hpre with rfl | rfl
  · rw [List.nil_append, h.2.2, h.2.1, h.2.2]
  · cases d with
    | nil => decide
    | cons c r =>
      have hlast := (List.rdropWhile_eq_self_iff (p := isWhiteSpace)).1 h.2.2 (List.cons_ne_nil c r)
      have hkeep : trimEnd ([' '] ++ c :: r) = [' '] ++ c :: r := by
        refine (List.rdropWhile_eq_self_iff (p := isWhiteSpace)).2 ?_
        intro hl
        have hsame : ([' '] ++ c :: r).getLast hl = (c :: r).getLast (List.cons_ne_nil c r) :=
          List.getLast_cons (List.cons_ne_nil c r)
        rw [hsame]
        exact hlast
      rw [hkeep]
      exact trim_prefixed h (Or.inr rfl)

theorem not_mem_prefixed {d : List Char} (h : Trimmed d) {pre : List Char}
    (hpre : pre = [] ∨ pre = [' ']) : ',' ∉ pre ++ d := by
  rcases hpre with rfl | rfl
  · simpa using h.1
  · intro hm
    rcases List.mem_append.1 hm with hm | hm
    · exact absurd hm (by decide)
    · exact h.1 hm

theorem pieces_join : ∀ (rest : List (List Char)) (t pre : List Char),
    (pre = [] ∨ pre = [' ']) → Trimmed t → (∀ u ∈ rest, Trimmed u) →
    ((splitComma (trimEnd (pre ++ t ++ joinRest rest))).1 ::
      (splitComma (trimEnd (pre ++ t ++ joinRest rest))).2).map
        (fun x => trimEnd (trimStart x)) = t :: rest
  | [], t, pre, hpre, ht, _ => by
    have hsub : ',' ∉ trimEnd (pre ++ t) := fun hm =>
      not_mem_prefixed ht hpre ((List.rdropWhile_prefix isWhiteSpace (pre ++ t)).subset hm)
    rw [joinRest, List.append_nil, splitComma_of_not_mem hsub]
    simp [trimEnd_prefixed ht hpre]
  | u :: rest, t, pre, hpre, ht, hrest => by
    have hcomma : isWhiteSpace ',' = false := by decide
    have hu : Trimmed u := hrest u (List.mem_cons_self u rest)
    have hr : ∀ v ∈ rest, Trimmed v := fun v hv => hrest v (List.mem_cons_of_mem u hv)
    have hshape : pre ++ t ++ joinRest (u :: rest)
        = (pre ++ t) ++ ',' :: ([' '] ++ u ++ joinRest rest) := by
      simp [joinRest]
    rw [hshape, trimEnd_append_cons hcomma,
      splitComma_append_comma _ (not_mem_prefixed ht hpre)]
    rw [List.map_cons, trim_prefixed ht hpre, pieces_join rest u [' '] (Or.inr rfl) hu hr]

theorem trimStart_join {t : List Char} (ht : Trimmed t) (rest : List (List Char)) :
    trimStart (t ++ joinRest rest) = t ++ joinRest rest := by
  cases t with
  | nil =>
    cases rest with
    | nil => rfl
    | cons u rest =>
      have hcomma : isWhiteSpace ',' = false := by decide
      simp [joinRest, trimStart, List.dropWhile, hcomma]
  | cons c r =>
    have hc : isWhiteSpace c = false := by
      cases hws : isWhiteSpace c with
      | false => rfl
      | true =>
        have h1 := ht.2.1
        simp only [trimStart, List.dropWhile, hws] at h1
        have h2 : (List.dropWhile isWhiteSpace r).length ≤ r.length :=
          (List.dropWhile_suffix isWhiteSpace).length_le
        rw [h1] at h2
        simp at h2
    simp [trimStart, List.dropWhile, hc]

theorem parseTags_intercalate (tags : List String) (hne : tags ≠ [])
    (h : ∀ t ∈ tags, ',' ∉ t.data ∧ jsTrim t = t) :
    parseTags (String.intercalate ", " tags) = tags := by
  have htrim : ∀ t ∈ tags, Trimmed t.data := by
    intro t ht
    have h2 : trimEnd (trimStart t.data) = t.data := congrArg String.data (h t ht).2
    exact ⟨(h t ht).1, trimStart_eq_self_of_trim h2, trimEnd_eq_self_of_trim h2⟩
  cases tags with
  | nil => exact absurd rfl hne
  | cons t rest =>
    have ht : Trimmed t.data := htrim t (List.mem_cons_self t rest)
    have hr : ∀ u ∈ rest.map String.data, Trimmed u := by
      intro u hu
      obtain ⟨v, hv, rfl⟩ := List.mem_map.1 hu
      exact htrim v (List.mem_cons_of_mem t hv)
    have hp := pieces_join (rest.map String.data) t.data [] (Or.inl rfl) ht hr
    rw [List.nil_append] at hp
    unfold parseTags jsSplitComma jsTrim
    rw [intercalate_data, trimStart_join ht, List.map_map]
    have hfun : (jsTrim ∘ String.mk) = String.mk ∘ (fun x => trimEnd (trimStart x)) := rfl
    show List.map (jsTrim ∘ String.mk) _ = _
    rw [hfun, ← List.map_map, hp, List.map_cons, List.map_map]
    have hid : (String.mk ∘ String.data) = id := rfl
    rw [hid, List.map_id]

/-- C20. For every tag sequence that is not empty and whose tags hold no comma and
are unchanged by trimming, the text of the tags joined by `", "` is parsed by
`handleSubmit` back into the same sequence; and `editBlog` on an entry with these
tags writes into the tags field a text that `handleSubmit` parses into the tags
of the entry. -/
theorem C20_tags_edit_round_trip (tags : List String) (hne : tags ≠ [])
    (hshape : ∀ t ∈ tags, ',' ∉ t.data ∧ jsTrim t = t) :
    parseTags (String.intercalate ", " tags) = tags ∧
      ∀ (ui : BlogUI) (id : Prim) (blog : Blog),
        ui.blogManager.getBlog id = some blog → blog.tags = tags →
          (ui.editBlog id).tagsInput = String.intercalate ", " blog.tags ∧
          parseTags (ui.editBlog id).tagsInput = blog.tags := by
  have hround := parseTags_intercalate tags hne hshape
  refine ⟨hround, ?_⟩
  intro ui id blog hget htags
  have hfield : (ui.editBlog id).tagsInput = String.intercalate ", " blog.tags := by
    unfold BlogUI.editBlog
    rw [hget]
  rw [hfield, htags]
  exact ⟨rfl, hround⟩

/-- C20 for the tags of the "Trip" entry, edited in the form over the one-entry
store. -/
theorem C20_tags_edit_round_trip_witness :
    (["travel", "summer"] : List String) ≠ [] ∧
      (∀ t ∈ (["travel", "summer"] : List String), ',' ∉ t.data ∧ jsTrim t = t) ∧
      parseTags (String.intercalate ", " ["travel", "summer"]) = ["travel", "summer"] ∧
      (editingForm.editBlog (.num 1700000000000)).tagsInput = "travel, summer" ∧
      parseTags (editingForm.editBlog (.num 1700000000000)).tagsInput
        = ["travel", "summer"] :=
  ⟨by decide, by decide,
    (C20_tags_edit_round_trip ["travel", "summer"] (by decide) (by decide)).1,
    by decide,
    ((C20_tags_edit_round_trip ["travel", "summer"] (by decide) (by decide)).2 editingForm
      (.num 1700000000000) _ rfl rfl).2⟩

end Lab08
